import Mathlib

set_option maxRecDepth 8000

/-!
Verification of the endpoint-matching and method-body-splicing logic of the
Spring Boot delegate generator (`DelegateGenrator.py`).  Python strings are
modelled as `List Char`, Python dicts over string keys as ordered association
lists with insert-overwrite semantics, and missing dict keys as `Option`.
-/

namespace DelegateGen

/-- The opening brace character. -/
def lbrace : Char := '\x7b'

/-- The closing brace character. -/
def rbrace : Char := '\x7d'

/-- Python `\s` / `str.strip` whitespace, over the ASCII range. -/
def pySpace (c : Char) : Bool :=
  c == ' ' || c == '\t' || c == '\n' || c == '\r' || c == '\x0b' || c == '\x0c'

/-- Python `str.lower` (ASCII). -/
def lowerStr (s : List Char) : List Char := s.map Char.toLower

/-- Python `str.upper` (ASCII). -/
def upperStr (s : List Char) : List Char := s.map Char.toUpper

/-- Python `str.capitalize`: first character upper-cased, the rest lower-cased. -/
def pyCapitalize : List Char → List Char
  | [] => []
  | c :: rest => Char.toUpper c :: rest.map Char.toLower

/-- Python `str.split(sep)` for a single-character separator; keeps empty pieces,
`"".split(sep) = [""]`. -/
def splitOnCh (sep : Char) : List Char → List (List Char)
  | [] => [[]]
  | c :: rest =>
    if c = sep then [] :: splitOnCh sep rest
    else
      match splitOnCh sep rest with
      | l :: ls => (c :: l) :: ls
      | [] => [[c]]

/-- Lookup in a Python dict modelled as an association list (first hit wins;
a well-formed dict has unique keys). -/
def dictGet {α : Type} (d : List (List Char × α)) (k : List Char) : Option α :=
  (d.find? (fun kv => kv.1 == k)).map (fun kv => kv.2)

/-- Python dict key-membership test (`k in d`). -/
def dictHasKey {α : Type} (d : List (List Char × α)) (k : List Char) : Bool :=
  d.any (fun kv => kv.1 == k)

/-- Python dict assignment `d[k] = v`: overwrite in place if the key exists,
otherwise append (insertion order is preserved). -/
def dictInsert {α : Type} (d : List (List Char × α)) (k : List Char) (v : α) :
    List (List Char × α) :=
  if dictHasKey d k then d.map (fun kv => if kv.1 == k then (k, v) else kv)
  else d ++ [(k, v)]

/-! ## Data model (`Parameter`, `Endpoint`, `EndpointMapping` dataclasses) -/

/-- `Parameter` dataclass. -/
structure Parameter where
  name : List Char
  location : List Char
  required : Bool
  type : List Char
  description : List Char
deriving DecidableEq, Repr

/-- Schema object: only the `$ref` and `type` keys are ever read. -/
structure SchemaObj where
  ref : Option (List Char)
  type : Option (List Char)
deriving DecidableEq, Repr

/-- Request-body object.  `content_schema` stands for the chain
`rb.get('content', {}).get('application/json', {}).get('schema', {})`
(`none` when any link is missing or empty). -/
structure RequestBodyObj where
  required : Option Bool
  content_schema : Option SchemaObj
deriving DecidableEq, Repr

/-- One response object; `content_schema` as in `RequestBodyObj`. -/
structure ResponseObj where
  content_schema : Option SchemaObj
deriving DecidableEq, Repr

/-- A raw parameter dict as found under an operation's `parameters` key. -/
structure ParamObj where
  name : Option (List Char)
  location : Option (List Char)
  required : Option Bool
  schema : Option SchemaObj
  description : Option (List Char)
deriving DecidableEq, Repr

/-- One operation object of an OpenAPI document (the keys `parse_endpoints`
reads).  `requestBody := none` models an absent or empty (falsy) dict. -/
structure OperationObj where
  operationId : Option (List Char)
  parameters : List ParamObj
  requestBody : Option RequestBodyObj
  responses : List (List Char × ResponseObj)
  tags : Option (List (List Char))
  summary : Option (List Char)
  description : Option (List Char)
deriving DecidableEq, Repr

/-- The `paths` table of an OpenAPI document: path → (method → operation). -/
structure OASDoc where
  paths : List (List Char × List (List Char × OperationObj))
deriving DecidableEq, Repr

/-- `Endpoint` dataclass. -/
structure Endpoint where
  path : List Char
  method : List Char
  operation_id : List Char
  parameters : List Parameter
  request_body : Option RequestBodyObj
  response_type : Option (List Char)
  summary : List Char
  description : List Char
  tag : List Char
deriving DecidableEq, Repr

/-- `EndpointMapping` dataclass; `param_mapping` is a string-keyed dict. -/
structure EndpointMapping where
  external_endpoint : Endpoint
  internal_endpoint : Endpoint
  param_mapping : List (List Char × List Char)
deriving DecidableEq, Repr

/-- One entry of the manual-mapping file (keyed by `external_operation_id`). -/
structure ManualMapping where
  internal_operation_id : List Char
  param_mapping : List (List Char × List Char)
deriving DecidableEq, Repr

/-! ## OASParser -/

/-- `OASParser._generate_operation_id`: lower-cased method followed by the
capitalized non-empty path segments that do not start with a brace. -/
def generate_operation_id (method : List Char) (path : List Char) : List Char :=
  let path_parts := (splitOnCh '/' path).filter
    (fun p => match p with | [] => false | c :: _ => !(c == lbrace))
  lowerStr method ++ (path_parts.map pyCapitalize).flatten

/-- `OASParser._parse_parameters`. -/
def parse_parameters (params : List ParamObj) : List Parameter :=
  params.map (fun p =>
    { name := p.name.getD ("unknown".toList)
      location := p.location.getD ("query".toList)
      required := p.required.getD false
      type := (match p.schema with
               | some s => s.type.getD ("string".toList)
               | none => "string".toList)
      description := p.description.getD [] })

/-- Last component of `s.split('/')` (Python `split('/')[-1]`). -/
def lastSlashPart (s : List Char) : List Char := (splitOnCh '/' s).getLastD []

/-- `OASParser._extract_schema_type`. -/
def extract_schema_type (request_body : RequestBodyObj) : List Char :=
  match request_body.content_schema with
  | some s =>
    match s.ref with
    | some r => lastSlashPart r
    | none => s.type.getD ("Object".toList)
  | none => "Object".toList

/-- The candidate response type contributed by one status code, `none` when the
status is absent or yields neither a `$ref` nor a truthy `type`. -/
def response_candidate (responses : List (List Char × ResponseObj))
    (status : List Char) : Option (List Char) :=
  match dictGet responses status with
  | none => none
  | some ro =>
    match ro.content_schema with
    | some s =>
      match s.ref with
      | some r => some (lastSlashPart r)
      | none =>
        match s.type with
        | some t => if t = [] then none else some t
        | none => none
    | none => none

/-- `OASParser._extract_response_type`: try status `200`, then `201`. -/
def extract_response_type (responses : List (List Char × ResponseObj)) :
    Option (List Char) :=
  match response_candidate responses ("200".toList) with
  | some t => some t
  | none => response_candidate responses ("201".toList)

/-- The HTTP methods `parse_endpoints` accepts. -/
def allowedMethods : List (List Char) :=
  ["get".toList, "post".toList, "put".toList, "delete".toList, "patch".toList]

/-- The body of the inner loop of `OASParser.parse_endpoints`: build the
`Endpoint` for one `(path, method, details)` triple, or `none` when the
method is filtered out. -/
def parseOp (path : List Char) (method : List Char) (details : OperationObj) :
    Option Endpoint :=
  if (lowerStr method) ∈ allowedMethods then
    let parameters := parse_parameters details.parameters
    let parameters := match details.requestBody with
      | some rb => parameters ++
          [{ name := "body".toList, location := "body".toList
             required := rb.required.getD false
             type := extract_schema_type rb
             description := "Request body".toList }]
      | none => parameters
    let tag := match details.tags with
      | some (t :: _) => t
      | some [] => "default".toList
      | none => "default".toList
    some
      { path := path
        method := upperStr method
        operation_id := details.operationId.getD (generate_operation_id method path)
        parameters := parameters
        request_body := details.requestBody
        response_type := extract_response_type details.responses
        summary := details.summary.getD []
        description := details.description.getD []
        tag := tag }
  else none

/-- `OASParser.parse_endpoints`: iterate paths in document order, methods in
per-path order. -/
def parse_endpoints (doc : OASDoc) : List Endpoint :=
  (doc.paths.map (fun pm => pm.2.filterMap (fun md => parseOp pm.1 md.1 md.2))).flatten

/-! ## EndpointMapper -/

/-- `EndpointMapper._find_endpoint_by_operation_id`: first endpoint with an
exactly equal operation id. -/
def find_endpoint_by_operation_id (endpoints : List Endpoint)
    (operation_id : List Char) : Option Endpoint :=
  endpoints.find? (fun ep => ep.operation_id == operation_id)

/-- Path segments, lower-cased, as used by the path heuristic
(`set(path.lower().split('/'))`; the model keeps the list, membership tests
give the set semantics). -/
def pathParts (path : List Char) : List (List Char) :=
  splitOnCh '/' (lowerStr path)

/-- Non-empty set intersection test (`ext_parts & int_parts`). -/
def hasCommonPart (a b : List (List Char)) : Bool :=
  a.any (fun x => b.contains x)

/-- `EndpointMapper._find_best_match`: first case-insensitive operation-id
match, otherwise first same-method endpoint sharing a path segment. -/
def find_best_match (external : Endpoint) (internal_endpoints : List Endpoint) :
    Option Endpoint :=
  match internal_endpoints.find?
      (fun int_ep => lowerStr int_ep.operation_id == lowerStr external.operation_id) with
  | some int_ep => some int_ep
  | none =>
    internal_endpoints.find? (fun int_ep =>
      int_ep.method == external.method &&
      hasCommonPart (pathParts external.path) (pathParts int_ep.path))

/-- The `{p.name.lower(): p.name for p in ps}` dict comprehension. -/
def buildNameDict (ps : List Parameter) : List (List Char × List Char) :=
  ps.foldl (fun d p => dictInsert d (lowerStr p.name) p.name) []

/-- The suffix test of the inner loop of `_auto_map_parameters`
(`ext_lower.endswith(int_lower) or int_lower.endswith(ext_lower)`). -/
def suffixRelated (ext_lower : List Char) (int_lower : List Char) : Bool :=
  List.isSuffixOf int_lower ext_lower || List.isSuffixOf ext_lower int_lower

/-- The body of the outer loop of `_auto_map_parameters`, for one
`(ext_lower, ext_name)` item: exact lower-cased lookup first, then the first
suffix-related internal dict item, else no entry. -/
def autoMapStep (int_params : List (List Char × List Char))
    (mapping : List (List Char × List Char)) (kv : List Char × List Char) :
    List (List Char × List Char) :=
  match dictGet int_params kv.1 with
  | some int_name => dictInsert mapping kv.2 int_name
  | none =>
    match (int_params.find? (fun iv => suffixRelated kv.1 iv.1)).map
        (fun iv => iv.2) with
    | some int_name => dictInsert mapping kv.2 int_name
    | none => mapping

/-- `EndpointMapper._auto_map_parameters`. -/
def auto_map_parameters (ext_ep : Endpoint) (int_ep : Endpoint) :
    List (List Char × List Char) :=
  let ext_params := buildNameDict ext_ep.parameters
  let int_params := buildNameDict int_ep.parameters
  ext_params.foldl (autoMapStep int_params) []

/-- `EndpointMapper.map_endpoints`; `overrides` is the `manual_mappings` dict
(modelled as a lookup function, matching Python dict `in`/`[]` use). -/
def map_endpoints (overrides : List Char → Option ManualMapping) :
    List Endpoint → List Endpoint → List EndpointMapping
  | [], _ => []
  | ext_ep :: rest, internal_endpoints =>
    match overrides ext_ep.operation_id with
    | some manual =>
      match find_endpoint_by_operation_id internal_endpoints
          manual.internal_operation_id with
      | some int_ep =>
        ⟨ext_ep, int_ep, manual.param_mapping⟩ ::
          map_endpoints overrides rest internal_endpoints
      | none => map_endpoints overrides rest internal_endpoints
    | none =>
      match find_best_match ext_ep internal_endpoints with
      | some int_ep =>
        ⟨ext_ep, int_ep, auto_map_parameters ext_ep int_ep⟩ ::
          map_endpoints overrides rest internal_endpoints
      | none => map_endpoints overrides rest internal_endpoints

/-! ## JavaDelegateInjector

The two regexes of the injector are embedded as a backtracking matcher with
Python `re` preference order: literals, greedy `\s+`/`\s*`/`[^)]*`, and a
lazy `.*?` (with and without `re.DOTALL`).  `re.search` semantics: the
left-most starting position whose backtracking match succeeds wins. -/

/-- Match a literal (the method name goes through `re.escape`, so it is a
literal too); returns the remaining input. -/
def litM : List Char → List Char → Option (List Char)
  | [], cs => some cs
  | _, [] => none
  | l :: ls, c :: cs => if c = l then litM ls cs else none

/-- `litM` then a continuation. -/
def litThen (lit : List Char) (cont : List Char → Option (List Char))
    (cs : List Char) : Option (List Char) :=
  match litM lit cs with
  | some rest => cont rest
  | none => none

/-- Greedy `\s*` followed by a continuation, with backtracking. -/
def sstarThen (cont : List Char → Option (List Char)) :
    List Char → Option (List Char)
  | [] => cont []
  | c :: rest =>
    if pySpace c then
      match sstarThen cont rest with
      | some r => some r
      | none => cont (c :: rest)
    else cont (c :: rest)

/-- Greedy `\s+` followed by a continuation (one mandatory space, then `\s*`). -/
def splusThen (cont : List Char → Option (List Char)) :
    List Char → Option (List Char)
  | [] => none
  | c :: rest => if pySpace c then sstarThen cont rest else none

/-- Greedy `[^)]*` followed by a continuation, with backtracking. -/
def nonParenThen (cont : List Char → Option (List Char)) :
    List Char → Option (List Char)
  | [] => cont []
  | c :: rest =>
    if c = ')' then cont (c :: rest)
    else
      match nonParenThen cont rest with
      | some r => some r
      | none => cont (c :: rest)

/-- Lazy `.*?` followed by a continuation; `dotOk` is `fun _ => true` under
`re.DOTALL` and `(· != '\n')` without it. -/
def dotLazyThen (dotOk : Char → Bool) (cont : List Char → Option (List Char)) :
    List Char → Option (List Char)
  | [] => cont []
  | c :: rest =>
    match cont (c :: rest) with
    | some r => some r
    | none => if dotOk c then dotLazyThen dotOk cont rest else none

/-- The shared head `@Override\s+public\s+ResponseEntity<.*?>` of both
injector regexes, continued by `tail` after the `>`. -/
def sigHeadThen (dotOk : Char → Bool) (tail : List Char → Option (List Char)) :
    List Char → Option (List Char) :=
  litThen ("@Override".toList) (splusThen (litThen ("public".toList)
    (splusThen (litThen ("ResponseEntity<".toList)
      (dotLazyThen dotOk (litThen (">".toList) tail))))))

/-- Tail `\s+name\s*\([^)]*\)` of the existence-check regex in
`inject_method`. -/
def tailNoBrace (name : List Char) : List Char → Option (List Char) :=
  splusThen (litThen name (sstarThen (litThen ("(".toList)
    (nonParenThen (litThen (")".toList) some)))))

/-- Tail `\s+name\s*\([^)]*\)\s*\{` of the regex in
`_update_existing_method`. -/
def tailWithBrace (name : List Char) : List Char → Option (List Char) :=
  splusThen (litThen name (sstarThen (litThen ("(".toList)
    (nonParenThen (litThen (")".toList) (sstarThen (litThen [lbrace] some)))))))

/-- `re.search`: end position (`match.end()`) of the match at the left-most
viable starting position. -/
def searchEndAux (m : List Char → Option (List Char)) :
    List Char → Nat → Option Nat
  | [], pos =>
    match m [] with
    | some rem => some (pos + (([] : List Char).length - rem.length))
    | none => none
  | c :: rest, pos =>
    match m (c :: rest) with
    | some rem => some (pos + ((c :: rest).length - rem.length))
    | none => searchEndAux m rest (pos + 1)

/-- `re.search(method_pattern, content)` of `inject_method` (no `re.DOTALL`,
no trailing brace): does the method already exist? -/
def method_exists (method_name : List Char) (content : List Char) : Bool :=
  (searchEndAux (sigHeadThen (fun c => !(c == '\n')) (tailNoBrace method_name))
    content 0).isSome

/-- `match.end()` of the `re.DOTALL` signature search in
`_update_existing_method` (position just past the opening brace). -/
def search_sig_end (method_name : List Char) (content : List Char) : Option Nat :=
  searchEndAux (sigHeadThen (fun _ => true) (tailWithBrace method_name)) content 0

/-- The brace-counting loop of `_update_existing_method`: starting with
`brace_count = 1` at absolute index `i`, return the final loop index and
whether the count reached zero (Python falls off the end otherwise). -/
def braceLoop : List Char → Nat → Nat → Nat × Bool
  | [], _, i => (i, false)
  | c :: rest, cnt, i =>
    let cnt' := if c = lbrace then cnt + 1 else if c = rbrace then cnt - 1 else cnt
    if cnt' = 0 then (i + 1, true) else braceLoop rest cnt' (i + 1)

/-- `JavaDelegateInjector._indent_code`: prefix each non-blank line with
`4 * levels` spaces; blank (whitespace-only) lines become empty. -/
def indent_code (code : List Char) (levels : Nat) : List Char :=
  let indent := List.replicate (4 * levels) ' '
  List.intercalate ['\n']
    ((splitOnCh '\n' code).map
      (fun line => if line.any (fun c => !(pySpace c)) then indent ++ line else []))

/-- `JavaDelegateInjector._update_existing_method`: splice the new body between
the matched opening brace and the brace-balanced end of the old body. -/
def update_existing_method (content : List Char) (method_name : List Char)
    (new_body : List Char) : List Char :=
  match search_sig_end method_name content with
  | none => content
  | some method_start =>
    let scanned := braceLoop (content.drop method_start) 1 method_start
    let method_end := scanned.1 - 1
    content.take method_start ++
      ('\n' :: indent_code new_body 2) ++
      ('\n' :: List.replicate 4 ' ') ++
      content.drop method_end

/-- Index of the last closing brace (`content.rfind('}')`). -/
def lastBraceIdx : List Char → Option Nat
  | [] => none
  | c :: rest =>
    match lastBraceIdx rest with
    | some i => some (i + 1)
    | none => if c = rbrace then some 0 else none

/-- `JavaDelegateInjector._add_new_method`: insert a full method block before
the class's last closing brace; raises `ValueError` when there is none. -/
def add_new_method (content : List Char) (signature : List Char)
    (body : List Char) : Except String (List Char) :=
  match lastBraceIdx content with
  | none => Except.error ("Invalid Java class structure")
  | some last_brace =>
    let indented_body := indent_code body 2
    let methodBlock := ('\n' :: List.replicate 4 ' ') ++ signature ++
      (' ' :: lbrace :: '\n' :: []) ++ indented_body ++
      ('\n' :: List.replicate 4 ' ') ++ (rbrace :: '\n' :: [])
    Except.ok (content.take last_brace ++ methodBlock ++
      ('\n' :: content.drop last_brace))

/-- `JavaDelegateInjector._build_signature`. -/
def build_signature (method_name : List Char) (parameters : List Parameter)
    (return_type : List Char) : List Char :=
  let params := parameters.filterMap (fun p =>
    if p.location = ("path".toList) then
      some (("@PathVariable String ".toList) ++ p.name)
    else if p.location = ("query".toList) then
      some (("@RequestParam String ".toList) ++ p.name)
    else if p.location = ("body".toList) then
      some (("@RequestBody ".toList) ++ p.type ++ [' '] ++ p.name)
    else none)
  let param_str := List.intercalate (", ".toList) params
  let response_type := if return_type = [] then ("?".toList) else return_type
  ("@Override\n    public ResponseEntity<".toList) ++ response_type ++
    ("> ".toList) ++ method_name ++ ("(".toList) ++ param_str ++ (")".toList)

/-- `JavaDelegateInjector.inject_method` on the file's content (the spec's
`spliceBody`): update the method in place when the existence regex matches,
otherwise append a new method built from `build_signature`. -/
def inject_method (content : List Char) (method_name : List Char)
    (parameters : List Parameter) (return_type : List Char)
    (method_body : List Char) : Except String (List Char) :=
  let signature := build_signature method_name parameters return_type
  if method_exists method_name content then
    Except.ok (update_existing_method content method_name method_body)
  else add_new_method content signature method_body

/-! ## Mapper lemmas and claims -/

/-- The first loop of `_find_best_match` finds nothing when no internal
operation id matches case-insensitively. -/
theorem find_ci_opid_none (e : Endpoint) (ints : List Endpoint)
    (h_oid : ∀ j ∈ ints, lowerStr j.operation_id ≠ lowerStr e.operation_id) :
    ints.find? (fun j => lowerStr j.operation_id == lowerStr e.operation_id)
      = none := by
  rw [List.find?_eq_none]
  intro j hj
  simp only [beq_iff_eq]
  exact h_oid j hj

/-- `_find_best_match` returns `none` when neither heuristic fires. -/
theorem find_best_match_none (e : Endpoint) (ints : List Endpoint)
    (h_oid : ∀ j ∈ ints, lowerStr j.operation_id ≠ lowerStr e.operation_id)
    (h_path : ∀ j ∈ ints, j.method = e.method →
      hasCommonPart (pathParts e.path) (pathParts j.path) = false) :
    find_best_match e ints = none := by
  have h2 : ints.find? (fun j => j.method == e.method &&
      hasCommonPart (pathParts e.path) (pathParts j.path)) = none := by
    rw [List.find?_eq_none]
    intro j hj
    simp only [Bool.and_eq_true, beq_iff_eq, not_and]
    intro hm
    simp [h_path j hj hm]
  simp [find_best_match, find_ci_opid_none e ints h_oid, h2]

/-- Claim C1: an external endpoint with no manual override, no case-insensitive
operation-id match, and no path-segment overlap (segments = split on `/`,
case-insensitive, empty segments included) with any same-method internal
endpoint gets no match from `_find_best_match`, and `map_endpoints` emits no
mapping for it. -/
theorem c1_unmatched_external_left_unmapped (e : Endpoint) (ints : List Endpoint)
    (ov : List Char → Option ManualMapping) (exts : List Endpoint)
    (h_ov : ov e.operation_id = none)
    (h_oid : ∀ j ∈ ints, lowerStr j.operation_id ≠ lowerStr e.operation_id)
    (h_path : ∀ j ∈ ints, j.method = e.method →
      hasCommonPart (pathParts e.path) (pathParts j.path) = false) :
    find_best_match e ints = none ∧
      e ∉ (map_endpoints ov exts ints).map EndpointMapping.external_endpoint := by
  have hfbm := find_best_match_none e ints h_oid h_path
  refine ⟨hfbm, ?_⟩
  induction exts with
  | nil => simp [map_endpoints]
  | cons x rest ih =>
    by_cases hx : x = e
    · subst hx
      simpa [map_endpoints, h_ov, hfbm] using ih
    · cases hov : ov x.operation_id with
      | some m =>
        cases hf : find_endpoint_by_operation_id ints m.internal_operation_id with
        | some i =>
          simp only [map_endpoints, hov, hf, List.map_cons, List.mem_cons, not_or]
          exact ⟨fun h => hx h.symm, ih⟩
        | none => simpa only [map_endpoints, hov, hf] using ih
      | none =>
        cases hb : find_best_match x ints with
        | some i =>
          simp only [map_endpoints, hov, hb, List.map_cons, List.mem_cons, not_or]
          exact ⟨fun h => hx h.symm, ih⟩
        | none => simpa only [map_endpoints, hov, hb] using ih

/-- External endpoint of the spec's `getUserById` scenario. -/
def extUserEp : Endpoint :=
  { path := "/api/users/\x7buserId\x7d".toList
    method := "GET".toList
    operation_id := "getUserById".toList
    parameters := [⟨"userId".toList, "path".toList, true, "string".toList, []⟩]
    request_body := none
    response_type := some ("User".toList)
    summary := [], description := [], tag := "users".toList }

/-- Internal endpoint of the spec's `fetchUserById` scenario. -/
def intUserEp : Endpoint :=
  { path := "/internal/v1/users/\x7bid\x7d".toList
    method := "GET".toList
    operation_id := "fetchUserById".toList
    parameters := [⟨"id".toList, "path".toList, true, "string".toList, []⟩]
    request_body := none
    response_type := some ("UserDetail".toList)
    summary := [], description := [], tag := "default".toList }

/-- Internal endpoint with a different method and unrelated id and path. -/
def intRegisterEp : Endpoint :=
  { path := "/internal/v1/users".toList
    method := "POST".toList
    operation_id := "registerUser".toList
    parameters := []
    request_body := none
    response_type := some ("UserDetail".toList)
    summary := [], description := [], tag := "default".toList }

theorem c1_witness :
    find_best_match extUserEp [intRegisterEp] = none ∧
      extUserEp ∉ (map_endpoints (fun _ => none) [extUserEp] [intRegisterEp]).map
        EndpointMapping.external_endpoint :=
  c1_unmatched_external_left_unmapped extUserEp [intRegisterEp]
    (fun _ => none) [extUserEp] rfl (by decide) (by decide)

/-- Claim C4: an override whose named internal operation id is present
short-circuits the heuristics: the emitted mapping is to exactly the endpoint
found by exact operation-id lookup, carrying exactly the override's parameter
mapping. -/
theorem c4_override_respected (e : Endpoint) (ints : List Endpoint)
    (ov : List Char → Option ManualMapping) (rest : List Endpoint)
    (m : ManualMapping) (i : Endpoint)
    (h_ov : ov e.operation_id = some m)
    (h_found : find_endpoint_by_operation_id ints m.internal_operation_id
      = some i) :
    map_endpoints ov (e :: rest) ints =
      ⟨e, i, m.param_mapping⟩ :: map_endpoints ov rest ints := by
  simp [map_endpoints, h_ov, h_found]

/-- The spec's override entry `getUserById -> fetchUserById, {userId: id}`. -/
def userOverride : ManualMapping :=
  ⟨"fetchUserById".toList, [("userId".toList, "id".toList)]⟩

/-- The `manual_mappings` dict holding only `userOverride`. -/
def userOverrides (k : List Char) : Option ManualMapping :=
  if k = ("getUserById".toList) then some userOverride else none

theorem c4_witness :
    map_endpoints userOverrides (extUserEp :: []) [intUserEp] =
      ⟨extUserEp, intUserEp, [("userId".toList, "id".toList)]⟩ ::
        map_endpoints userOverrides [] [intUserEp] :=
  c4_override_respected extUserEp [intUserEp] userOverrides [] userOverride
    intUserEp (by decide) (by decide)

/-- Claim C5: a case-insensitive operation-id match is taken by
`_find_best_match` — the first one in catalog order — and, absent an override,
`map_endpoints` emits the corresponding mapping; the chosen endpoint's
operation id equals the external one case-insensitively. -/
theorem c5_ci_opid_match_chosen (e : Endpoint) (ints : List Endpoint)
    (i : Endpoint) (ov : List Char → Option ManualMapping) (rest : List Endpoint)
    (h_find : ints.find?
      (fun j => lowerStr j.operation_id == lowerStr e.operation_id) = some i)
    (h_ov : ov e.operation_id = none) :
    find_best_match e ints = some i ∧
      lowerStr i.operation_id = lowerStr e.operation_id ∧
      map_endpoints ov (e :: rest) ints =
        ⟨e, i, auto_map_parameters e i⟩ :: map_endpoints ov rest ints := by
  have hp := List.find?_some h_find
  have h1 : find_best_match e ints = some i := by simp [find_best_match, h_find]
  exact ⟨h1, by simpa using hp, by simp [map_endpoints, h_ov, h1]⟩

/-- Internal endpoint whose operation id matches `getUserById` only up to
case. -/
def intGetUserEp : Endpoint :=
  { path := "/internal/users/\x7bid\x7d".toList
    method := "GET".toList
    operation_id := "GETUSERBYID".toList
    parameters := [⟨"id".toList, "path".toList, true, "string".toList, []⟩]
    request_body := none
    response_type := none
    summary := [], description := [], tag := "default".toList }

theorem c5_witness :
    find_best_match extUserEp [intRegisterEp, intGetUserEp] = some intGetUserEp ∧
      lowerStr intGetUserEp.operation_id = lowerStr extUserEp.operation_id ∧
      map_endpoints (fun _ => none) (extUserEp :: [])
          [intRegisterEp, intGetUserEp] =
        ⟨extUserEp, intGetUserEp, auto_map_parameters extUserEp intGetUserEp⟩ ::
          map_endpoints (fun _ => none) [] [intRegisterEp, intGetUserEp] :=
  c5_ci_opid_match_chosen extUserEp [intRegisterEp, intGetUserEp] intGetUserEp
    (fun _ => none) [] (by decide) rfl

/-- Claim C6: when no operation id matches case-insensitively, the path
heuristic picks the first internal endpoint in catalog order with the same
method and a shared path segment. -/
theorem c6_path_heuristic_first_wins (e : Endpoint) (ints : List Endpoint)
    (i : Endpoint)
    (h_oid : ∀ j ∈ ints, lowerStr j.operation_id ≠ lowerStr e.operation_id)
    (h_find : ints.find? (fun j => j.method == e.method &&
      hasCommonPart (pathParts e.path) (pathParts j.path)) = some i) :
    find_best_match e ints = some i := by
  simp [find_best_match, find_ci_opid_none e ints h_oid, h_find]

/-- First internal endpoint of the spec's tie-break scenario. -/
def intUsersActiveEp : Endpoint :=
  { path := "/users/active".toList
    method := "GET".toList
    operation_id := "activeUsers".toList
    parameters := []
    request_body := none
    response_type := none
    summary := [], description := [], tag := "default".toList }

/-- Second internal endpoint of the spec's tie-break scenario. -/
def intUserOrdersEp : Endpoint :=
  { path := "/users/\x7bid\x7d/orders".toList
    method := "GET".toList
    operation_id := "userOrders".toList
    parameters := []
    request_body := none
    response_type := none
    summary := [], description := [], tag := "default".toList }

/-- External endpoint sharing the `users` segment with both internal ones. -/
def extUsersListEp : Endpoint :=
  { path := "/users".toList
    method := "GET".toList
    operation_id := "listUsers".toList
    parameters := []
    request_body := none
    response_type := none
    summary := [], description := [], tag := "default".toList }

theorem c6_witness :
    find_best_match extUsersListEp [intUsersActiveEp, intUserOrdersEp]
      = some intUsersActiveEp :=
  c6_path_heuristic_first_wins extUsersListEp [intUsersActiveEp, intUserOrdersEp]
    intUsersActiveEp (by decide) (by decide)

/-- Claim C8: an override naming an internal operation id that is absent from
the catalog makes `map_endpoints` skip the external endpoint silently — the
result is exactly the result for the remaining endpoints, so no mapping is
emitted and the heuristics are never consulted (the embedded mapper is a total
function, so no error can be raised). -/
theorem c8_override_missing_silent_skip (e : Endpoint) (ints : List Endpoint)
    (ov : List Char → Option ManualMapping) (rest : List Endpoint)
    (m : ManualMapping)
    (h_ov : ov e.operation_id = some m)
    (h_absent : find_endpoint_by_operation_id ints m.internal_operation_id
      = none) :
    map_endpoints ov (e :: rest) ints = map_endpoints ov rest ints := by
  simp [map_endpoints, h_ov, h_absent]

/-- Override for `getUserById` pointing at an operation id that no internal
endpoint carries. -/
def danglingOverrides (k : List Char) : Option ManualMapping :=
  if k = ("getUserById".toList) then some ⟨"noSuchOp".toList, []⟩ else none

theorem c8_witness :
    map_endpoints danglingOverrides (extUserEp :: []) [intGetUserEp] =
        map_endpoints danglingOverrides [] [intGetUserEp] ∧
      find_best_match extUserEp [intGetUserEp] = some intGetUserEp :=
  ⟨c8_override_missing_silent_skip extUserEp [intGetUserEp] danglingOverrides []
      ⟨"noSuchOp".toList, []⟩ (by decide) (by decide),
    by decide⟩

/-! ## Dict lemmas for `_auto_map_parameters` (claim C9) -/

theorem dictGet_nil {α : Type} (k : List Char) :
    dictGet ([] : List (List Char × α)) k = none := rfl

theorem dictGet_cons {α : Type} (kv : List Char × α) (rest : List (List Char × α))
    (k : List Char) :
    dictGet (kv :: rest) k = if kv.1 == k then some kv.2 else dictGet rest k := by
  cases h : (kv.1 == k) with
  | true => simp [dictGet, List.find?, h]
  | false => simp [dictGet, List.find?, h]

theorem dictHasKey_cons {α : Type} (kv : List Char × α)
    (rest : List (List Char × α)) (k : List Char) :
    dictHasKey (kv :: rest) k = (kv.1 == k || dictHasKey rest k) := by
  simp [dictHasKey]

theorem dictHasKey_append {α : Type} (d e : List (List Char × α)) (k : List Char) :
    dictHasKey (d ++ e) k = (dictHasKey d k || dictHasKey e k) := by
  simp [dictHasKey, List.any_append]

theorem dictGet_none_iff_no_key {α : Type} (d : List (List Char × α))
    (k : List Char) : dictGet d k = none ↔ dictHasKey d k = false := by
  induction d with
  | nil => simp [dictGet, dictHasKey]
  | cons kv rest ih =>
    rw [dictGet_cons, dictHasKey_cons]
    cases h : (kv.1 == k) with
    | true => simp
    | false => simpa using ih

theorem dictInsert_fresh {α : Type} (d : List (List Char × α)) (k : List Char)
    (v : α) (h : dictHasKey d k = false) : dictInsert d k v = d ++ [(k, v)] := by
  simp [dictInsert, h]

/-- Appending an entry under a different key does not change a lookup. -/
theorem dictGet_append_single {α : Type} (d : List (List Char × α))
    (k' k : List Char) (v : α) (h : (k' == k) = false) :
    dictGet (d ++ [(k', v)]) k = dictGet d k := by
  induction d with
  | nil => simp [dictGet_nil, dictGet_cons, h]
  | cons kv rest ih =>
    rw [List.cons_append, dictGet_cons, dictGet_cons, ih]

theorem find?_cons_eq {α : Type} (p : α → Bool) (a : α) (l : List α) :
    (a :: l).find? p = if p a then some a else l.find? p := by
  cases h : p a with
  | true => simp [List.find?, h]
  | false => simp [List.find?, h]

/-- Overwriting the value under a different key does not change a lookup. -/
theorem dictGet_overwrite_map {α : Type} (d : List (List Char × α))
    (k' k : List Char) (v : α) (h : (k' == k) = false) :
    dictGet (d.map (fun kv => if kv.1 == k' then (k', v) else kv)) k
      = dictGet d k := by
  induction d with
  | nil => rfl
  | cons kv rest ih =>
    rw [List.map_cons, dictGet_cons, dictGet_cons]
    set m := rest.map (fun kv => if kv.1 == k' then (k', v) else kv) with hm
    cases hkv : (kv.1 == k') with
    | true =>
      have h1 : kv.1 = k' := by simpa using hkv
      have hk1 : (kv.1 == k) = false := by rw [h1]; exact h
      simp [hkv, h, hk1, ih]
    | false => simp [hkv, ih]

/-- Inserting under a fresh key puts the value where lookup finds it. -/
theorem dictGet_insert_self {α : Type} (d : List (List Char × α)) (k : List Char)
    (v : α) (h : dictGet d k = none) : dictGet (dictInsert d k v) k = some v := by
  rw [dictInsert_fresh d k v ((dictGet_none_iff_no_key d k).mp h)]
  induction d with
  | nil => simp [dictGet_nil, dictGet_cons]
  | cons kv rest ih =>
    rw [dictGet_cons] at h
    rw [List.cons_append, dictGet_cons]
    cases hkv : (kv.1 == k) with
    | true => simp [hkv] at h
    | false =>
      simp only [hkv, if_false, Bool.false_eq_true] at h ⊢
      exact ih h

/-- Inserting under a different key does not change a lookup. -/
theorem dictGet_insert_ne {α : Type} (d : List (List Char × α))
    (k' k : List Char) (v : α) (h : k' ≠ k) :
    dictGet (dictInsert d k' v) k = dictGet d k := by
  have hbeq : (k' == k) = false := by simpa using h
  unfold dictInsert
  by_cases hk : dictHasKey d k' = true
  · simp only [hk, if_true]
    exact dictGet_overwrite_map d k' k v hbeq
  · simp only [hk, if_false, Bool.false_eq_true]
    exact dictGet_append_single d k' k v hbeq

/-- `{p.name.lower(): p.name for p in ps}` in insertion order, provided the
lower-cased names are pairwise distinct. -/
theorem buildNameDict_eq_map (ps : List Parameter)
    (h : (ps.map (fun p => lowerStr p.name)).Nodup) :
    buildNameDict ps = ps.map (fun p => (lowerStr p.name, p.name)) := by
  suffices hgen : ∀ (l : List Parameter) (d : List (List Char × List Char)),
      (∀ p ∈ l, dictHasKey d (lowerStr p.name) = false) →
      (l.map (fun p => lowerStr p.name)).Nodup →
      l.foldl (fun d p => dictInsert d (lowerStr p.name) p.name) d
        = d ++ l.map (fun p => (lowerStr p.name, p.name)) by
    simpa [buildNameDict] using hgen ps [] (by simp [dictHasKey]) h
  intro l
  induction l with
  | nil => intro d _ _; simp
  | cons q rest ih =>
    intro d hfresh hnodup
    simp only [List.map_cons, List.nodup_cons] at hnodup
    simp only [List.foldl_cons]
    rw [dictInsert_fresh d _ _ (hfresh q (List.mem_cons_self q rest))]
    rw [ih (d ++ [(lowerStr q.name, q.name)]) ?_ hnodup.2]
    · simp
    · intro p hp
      rw [dictHasKey_append]
      have h1 := hfresh p (List.mem_cons_of_mem q hp)
      have h2 : (lowerStr q.name == lowerStr p.name) = false := by
        simp only [beq_eq_false_iff_ne, ne_eq]
        intro heq
        exact hnodup.1 (heq ▸ List.mem_map_of_mem (fun p => lowerStr p.name) hp)
      rw [h1, dictHasKey_cons]
      simp [dictHasKey, h2]

/-- Lookup in the built name dict is a `find?` over the parameter list. -/
theorem dictGet_name_map (ps : List Parameter) (k : List Char) :
    dictGet (ps.map (fun p => (lowerStr p.name, p.name))) k
      = (ps.find? (fun p => lowerStr p.name == k)).map (fun p => p.name) := by
  induction ps with
  | nil => rfl
  | cons q rest ih =>
    rw [List.map_cons, dictGet_cons, find?_cons_eq]
    cases h : (lowerStr q.name == k) with
    | true => simp only [h, if_true]; rfl
    | false =>
      simp only [h, Bool.false_eq_true, if_false]
      exact ih

/-- The suffix scan over the built name dict is a `find?` over the
parameter list. -/
theorem find_suffix_name_map (ps : List Parameter) (k : List Char) :
    ((ps.map (fun p => (lowerStr p.name, p.name))).find?
        (fun iv => suffixRelated k iv.1)).map (fun iv => iv.2)
      = (ps.find? (fun p => suffixRelated k (lowerStr p.name))).map
          (fun p => p.name) := by
  induction ps with
  | nil => rfl
  | cons q rest ih =>
    rw [List.map_cons, find?_cons_eq, find?_cons_eq]
    cases h : suffixRelated k (lowerStr q.name) with
    | true => simp only [h, if_true]; rfl
    | false =>
      simp only [h, Bool.false_eq_true, if_false]
      exact ih

/-- The value `autoMapStep` would associate with an external lower-cased
name: the exact lower-cased internal match, else the first suffix-related
internal dict item. -/
def autoMapVal (int_params : List (List Char × List Char)) (x : List Char) :
    Option (List Char) :=
  match dictGet int_params x with
  | some int_name => some int_name
  | none =>
    (int_params.find? (fun iv => suffixRelated x iv.1)).map (fun iv => iv.2)

/-- One `autoMapStep` leaves lookups under other keys untouched. -/
theorem autoMapStep_get_ne (intd : List (List Char × List Char))
    (acc : List (List Char × List Char)) (e : List Char × List Char)
    (k : List Char) (hne : e.2 ≠ k) :
    dictGet (autoMapStep intd acc e) k = dictGet acc k := by
  unfold autoMapStep
  cases hg : dictGet intd e.1 with
  | some v => exact dictGet_insert_ne acc e.2 k v hne
  | none =>
    cases hs : (intd.find? (fun iv => suffixRelated e.1 iv.1)).map
        (fun iv => iv.2) with
    | some v => exact dictGet_insert_ne acc e.2 k v hne
    | none => rfl

/-- One `autoMapStep` installs `autoMapVal` under the entry's own key. -/
theorem autoMapStep_get_self (intd : List (List Char × List Char))
    (acc : List (List Char × List Char)) (e : List Char × List Char)
    (hget : dictGet acc e.2 = none) :
    dictGet (autoMapStep intd acc e) e.2 = autoMapVal intd e.1 := by
  unfold autoMapStep autoMapVal
  cases hg : dictGet intd e.1 with
  | some v => exact dictGet_insert_self acc e.2 v hget
  | none =>
    cases hs : (intd.find? (fun iv => suffixRelated e.1 iv.1)).map
        (fun iv => iv.2) with
    | some v => exact dictGet_insert_self acc e.2 v hget
    | none => exact hget

/-- The `_auto_map_parameters` fold leaves keys it never inserts untouched. -/
theorem fold_autoMapStep_untouched (intd : List (List Char × List Char)) :
    ∀ (l : List (List Char × List Char)) (acc : List (List Char × List Char))
      (k : List Char), (∀ e ∈ l, e.2 ≠ k) →
      dictGet (l.foldl (autoMapStep intd) acc) k = dictGet acc k := by
  intro l
  induction l with
  | nil => intro acc k _; rfl
  | cons e rest ih =>
    intro acc k hk
    simp only [List.foldl_cons]
    rw [ih _ k (fun e' he' => hk e' (List.mem_cons_of_mem e he'))]
    exact autoMapStep_get_ne intd acc e k (hk e (List.mem_cons_self e rest))

/-- Lookup after the `_auto_map_parameters` fold: each entry with a distinct
second component ends up carrying exactly `autoMapVal` of its first. -/
theorem fold_autoMapStep_get (intd : List (List Char × List Char)) :
    ∀ (l : List (List Char × List Char)) (acc : List (List Char × List Char))
      (kv : List Char × List Char), kv ∈ l → (l.map Prod.snd).Nodup →
      dictGet acc kv.2 = none →
      dictGet (l.foldl (autoMapStep intd) acc) kv.2 = autoMapVal intd kv.1 := by
  intro l
  induction l with
  | nil => intro acc kv h; cases h
  | cons e rest ih =>
    intro acc kv hmem hnodup hget
    simp only [List.map_cons, List.nodup_cons] at hnodup
    simp only [List.foldl_cons]
    rcases List.mem_cons.mp hmem with heq | hmem'
    · subst heq
      have hnot : ∀ e' ∈ rest, e'.2 ≠ kv.2 := by
        intro e' he' heq'
        exact hnodup.1 (heq' ▸ List.mem_map_of_mem Prod.snd he')
      rw [fold_autoMapStep_untouched intd rest _ kv.2 hnot]
      exact autoMapStep_get_self intd acc kv hget
    · refine ih _ kv hmem' hnodup.2 ?_
      have hne : e.2 ≠ kv.2 := by
        intro heq'
        exact hnodup.1 (heq' ▸ List.mem_map_of_mem Prod.snd hmem')
      rw [autoMapStep_get_ne intd acc e kv.2 hne]
      exact hget

/-- Claim C9 (amended): when the lower-cased parameter names are pairwise
distinct on each side, each external parameter maps to the internal parameter
with the case-insensitively equal name if one exists, otherwise to the first
internal parameter in catalog order whose lower-cased name is a suffix of the
external one or vice versa, and is otherwise absent from the mapping. -/
theorem c9_auto_map_characterization (ext_ep : Endpoint) (int_ep : Endpoint)
    (hext : (ext_ep.parameters.map (fun q => lowerStr q.name)).Nodup)
    (hint : (int_ep.parameters.map (fun q => lowerStr q.name)).Nodup)
    (p : Parameter) (hp : p ∈ ext_ep.parameters) :
    dictGet (auto_map_parameters ext_ep int_ep) p.name =
      match int_ep.parameters.find?
          (fun q => lowerStr q.name == lowerStr p.name) with
      | some q => some q.name
      | none =>
        (int_ep.parameters.find? (fun q =>
          suffixRelated (lowerStr p.name) (lowerStr q.name))).map
            (fun q => q.name) := by
  have hnames : (ext_ep.parameters.map (fun q => q.name)).Nodup := by
    have hmm : (ext_ep.parameters.map (fun q => q.name)).map lowerStr
        = ext_ep.parameters.map (fun q => lowerStr q.name) := by
      simp [List.map_map, Function.comp]
    exact List.Nodup.of_map lowerStr (hmm ▸ hext)
  have hsnd : ((ext_ep.parameters.map
        (fun q => (lowerStr q.name, q.name))).map Prod.snd).Nodup := by
    have hmm : (ext_ep.parameters.map
          (fun q => (lowerStr q.name, q.name))).map Prod.snd
        = ext_ep.parameters.map (fun q => q.name) := by
      simp [List.map_map, Function.comp]
    rw [hmm]; exact hnames
  have hmem : ((lowerStr p.name, p.name) : List Char × List Char)
      ∈ ext_ep.parameters.map (fun q => (lowerStr q.name, q.name)) :=
    List.mem_map_of_mem (fun q => (lowerStr q.name, q.name)) hp
  simp only [auto_map_parameters]
  rw [buildNameDict_eq_map ext_ep.parameters hext,
      buildNameDict_eq_map int_ep.parameters hint]
  rw [show dictGet
      ((ext_ep.parameters.map (fun q => (lowerStr q.name, q.name))).foldl
        (autoMapStep (int_ep.parameters.map (fun q => (lowerStr q.name, q.name))))
        []) p.name
      = autoMapVal (int_ep.parameters.map (fun q => (lowerStr q.name, q.name)))
          (lowerStr p.name) from
    fold_autoMapStep_get _ _ [] (lowerStr p.name, p.name) hmem hsnd rfl]
  unfold autoMapVal
  rw [dictGet_name_map, find_suffix_name_map]
  cases hfind : int_ep.parameters.find?
      (fun q => lowerStr q.name == lowerStr p.name) with
  | some q => rfl
  | none => rfl

/-- External endpoint whose two parameter names collide case-insensitively. -/
def extDupParamEp : Endpoint :=
  { path := "/x".toList
    method := "GET".toList
    operation_id := "x".toList
    parameters := [⟨"ID".toList, "path".toList, true, "string".toList, []⟩,
                   ⟨"id".toList, "query".toList, false, "string".toList, []⟩]
    request_body := none
    response_type := none
    summary := [], description := [], tag := "default".toList }

/-- Internal endpoint with the single parameter `ID`. -/
def intIdParamEp : Endpoint :=
  { path := "/y".toList
    method := "GET".toList
    operation_id := "y".toList
    parameters := [⟨"ID".toList, "path".toList, true, "string".toList, []⟩]
    request_body := none
    response_type := none
    summary := [], description := [], tag := "default".toList }

/-- Claim C9 as stated is false: external parameter `ID` has a
case-insensitively equal internal parameter `ID`, yet the produced mapping
contains no entry for `ID` — the dict comprehension collapses `ID` and `id`
to one lower-cased key whose value is the last original name, `id`. -/
theorem c9_counterexample :
    auto_map_parameters extDupParamEp intIdParamEp
        = [("id".toList, "ID".toList)] ∧
      dictGet (auto_map_parameters extDupParamEp intIdParamEp) ("ID".toList)
        = none := by
  constructor
  · rfl
  · rfl

theorem c9_witness :
    dictGet (auto_map_parameters extUserEp intUserEp)
        (("userId".toList : List Char)) =
      match intUserEp.parameters.find?
          (fun q => lowerStr q.name ==
            lowerStr (⟨"userId".toList, "path".toList, true, "string".toList,
              []⟩ : Parameter).name) with
      | some q => some q.name
      | none =>
        (intUserEp.parameters.find? (fun q =>
          suffixRelated (lowerStr (⟨"userId".toList, "path".toList, true,
            "string".toList, []⟩ : Parameter).name)
            (lowerStr q.name))).map (fun q => q.name) :=
  c9_auto_map_characterization extUserEp intUserEp (by decide) (by decide)
    ⟨"userId".toList, "path".toList, true, "string".toList, []⟩ (by decide)

/-! ## Splicer lemmas and claims C2, C3, C7 -/

/-- A match end reported by `searchEndAux` lies within the text. -/
theorem searchEndAux_le (m : List Char → Option (List Char)) :
    ∀ (cs : List Char) (pos e : Nat), searchEndAux m cs pos = some e →
      e ≤ pos + cs.length := by
  intro cs
  induction cs with
  | nil =>
    intro pos e h
    simp only [searchEndAux] at h
    cases hm : m [] with
    | some rem => rw [hm] at h; simp at h; omega
    | none => rw [hm] at h; simp at h
  | cons c rest ih =>
    intro pos e h
    simp only [searchEndAux] at h
    cases hm : m (c :: rest) with
    | some rem =>
      rw [hm] at h
      simp only [Option.some.injEq, List.length_cons] at h
      simp only [List.length_cons]
      omega
    | none =>
      rw [hm] at h
      have := ih (pos + 1) e h
      simp only [List.length_cons]
      omega

/-- When the brace scan reports success, its final index points one past a
closing brace inside the scanned region. -/
theorem braceLoop_closes :
    ∀ (cs : List Char) (cnt i : Nat), 1 ≤ cnt →
      (braceLoop cs cnt i).2 = true →
      i < (braceLoop cs cnt i).1 ∧
      (braceLoop cs cnt i).1 ≤ i + cs.length ∧
      cs[(braceLoop cs cnt i).1 - 1 - i]? = some rbrace := by
  intro cs
  induction cs with
  | nil => intro cnt i _ h2; simp [braceLoop] at h2
  | cons c rest ih =>
    intro cnt i h1 h2
    by_cases hz : (if c = lbrace then cnt + 1 else if c = rbrace then cnt - 1 else cnt) = 0
    · have hres : braceLoop (c :: rest) cnt i = (i + 1, true) := by
        simp only [braceLoop, hz, if_true]
      rw [hres]
      have hc : c = rbrace := by
        by_cases hb : c = lbrace
        · simp [hb] at hz
        · by_cases hr : c = rbrace
          · exact hr
          · simp [hb, hr] at hz; omega
      have hidx : i + 1 - 1 - i = 0 := by omega
      refine ⟨by omega, by simp only [List.length_cons]; omega, ?_⟩
      rw [hidx, hc]
      simp
    · have hres : braceLoop (c :: rest) cnt i
          = braceLoop rest (if c = lbrace then cnt + 1 else
              if c = rbrace then cnt - 1 else cnt) (i + 1) := by
        simp only [braceLoop, hz, if_false]
      rw [hres] at h2 ⊢
      have hcnt' : 1 ≤ (if c = lbrace then cnt + 1 else
          if c = rbrace then cnt - 1 else cnt) := Nat.one_le_iff_ne_zero.mpr hz
      obtain ⟨ha, hb, hc⟩ := ih _ (i + 1) hcnt' h2
      refine ⟨by omega, by simp only [List.length_cons]; omega, ?_⟩
      have hidx : (braceLoop rest (if c = lbrace then cnt + 1 else
            if c = rbrace then cnt - 1 else cnt) (i + 1)).1 - 1 - i
          = ((braceLoop rest (if c = lbrace then cnt + 1 else
              if c = rbrace then cnt - 1 else cnt) (i + 1)).1 - 1 - (i + 1)) + 1 := by
        omega
      rw [hidx, List.getElem?_cons_succ]
      exact hc

/-- The brace scan walks through a brace-free block unchanged. -/
theorem braceLoop_skip (xs : List Char)
    (hxs : ∀ c ∈ xs, c ≠ lbrace ∧ c ≠ rbrace) :
    ∀ (ys : List Char) (cnt i : Nat), cnt ≠ 0 →
      braceLoop (xs ++ ys) cnt i = braceLoop ys cnt (i + xs.length) := by
  induction xs with
  | nil => intro ys cnt i _; simp
  | cons c rest ih =>
    intro ys cnt i hcnt
    have hc := hxs c (List.mem_cons_self c rest)
    have hrest : ∀ c' ∈ rest, c' ≠ lbrace ∧ c' ≠ rbrace :=
      fun c' hc' => hxs c' (List.mem_cons_of_mem c hc')
    simp only [List.cons_append, braceLoop, hc.1, hc.2, if_false, hcnt,
      List.append_eq]
    rw [ih hrest ys cnt (i + 1) hcnt]
    simp only [List.length_cons]
    congr 1
    omega

/-- Unfolded shape of `_update_existing_method` once the signature is found. -/
theorem update_existing_method_eq (S M B : List Char) (e : Nat)
    (h1 : search_sig_end M S = some e) :
    update_existing_method S M B
      = S.take e ++ ('\n' :: indent_code B 2) ++ ('\n' :: List.replicate 4 ' ')
        ++ S.drop ((braceLoop (S.drop e) 1 e).1 - 1) := by
  simp only [update_existing_method, h1]

/-- Claim C2: when the signature pattern matches (match end `e`) and the brace
scan closes, splicing preserves the prefix of the source up to and including
the matched opening brace and the suffix from the closing brace onward, and
the closing position really holds a closing brace. -/
theorem c2_splice_frame (S M B : List Char) (e : Nat)
    (h1 : search_sig_end M S = some e)
    (h2 : (braceLoop (S.drop e) 1 e).2 = true) :
    (update_existing_method S M B).take e = S.take e ∧
    (update_existing_method S M B).drop (e + ((indent_code B 2).length + 6))
      = S.drop ((braceLoop (S.drop e) 1 e).1 - 1) ∧
    S[(braceLoop (S.drop e) 1 e).1 - 1]? = some rbrace := by
  have he : e ≤ S.length := by
    have := searchEndAux_le _ S 0 e h1
    omega
  have htake : (S.take e).length = e := by
    rw [List.length_take]; omega
  obtain ⟨ha, hb, hc⟩ := braceLoop_closes (S.drop e) 1 e (le_refl 1) h2
  rw [update_existing_method_eq S M B e h1]
  refine ⟨?_, ?_, ?_⟩
  · rw [List.append_assoc, List.append_assoc, List.take_left' htake]
  · have hlen : ((S.take e ++ ('\n' :: indent_code B 2))
        ++ ('\n' :: List.replicate 4 ' ')).length
        = e + ((indent_code B 2).length + 6) := by
      simp [List.length_append, htake]
    rw [List.drop_left' hlen]
  · rw [List.getElem?_drop] at hc
    have : e + ((braceLoop (S.drop e) 1 e).1 - 1 - e)
        = (braceLoop (S.drop e) 1 e).1 - 1 := by omega
    rw [this] at hc
    exact hc

/-- Java source used by the splicing witnesses. -/
def witnessJavaSrc : List Char :=
  "class A \x7b @Override public ResponseEntity<X> foo(int a) \x7b return 1; \x7d \x7d".toList

theorem c2_witness :
    (update_existing_method witnessJavaSrc ("foo".toList)
        ("return null;".toList)).take 57 = witnessJavaSrc.take 57 ∧
    (update_existing_method witnessJavaSrc ("foo".toList)
        ("return null;".toList)).drop
          (57 + ((indent_code ("return null;".toList) 2).length + 6))
      = witnessJavaSrc.drop
          ((braceLoop (witnessJavaSrc.drop 57) 1 57).1 - 1) ∧
    witnessJavaSrc[(braceLoop (witnessJavaSrc.drop 57) 1 57).1 - 1]?
      = some rbrace :=
  c2_splice_frame witnessJavaSrc ("foo".toList) ("return null;".toList) 57
    (by decide) (by decide)

/-- Scanning from a closing brace with count `1` closes immediately. -/
theorem braceLoop_rbrace_head (tail : List Char) (k : Nat) :
    braceLoop (rbrace :: tail) 1 k = (k + 1, true) := by
  have h1 : ¬ (rbrace = lbrace) := by decide
  simp [braceLoop, h1]

/-- When the brace scan runs off the end, its final index is the text end. -/
theorem braceLoop_no_close :
    ∀ (cs : List Char) (cnt i : Nat), (braceLoop cs cnt i).2 = false →
      (braceLoop cs cnt i).1 = i + cs.length := by
  intro cs
  induction cs with
  | nil => intro cnt i _; simp [braceLoop]
  | cons c rest ih =>
    intro cnt i h
    by_cases hz : (if c = lbrace then cnt + 1 else if c = rbrace then cnt - 1 else cnt) = 0
    · have hres : braceLoop (c :: rest) cnt i = (i + 1, true) := by
        simp only [braceLoop, hz, if_true]
      rw [hres] at h
      simp at h
    · have hres : braceLoop (c :: rest) cnt i
          = braceLoop rest (if c = lbrace then cnt + 1 else
              if c = rbrace then cnt - 1 else cnt) (i + 1) := by
        simp only [braceLoop, hz, if_false]
      rw [hres] at h ⊢
      rw [ih _ (i + 1) h]
      simp only [List.length_cons]
      omega

/-- Scanning a single character with count `1` ends one past it, whether or
not that character closes the count. -/
theorem braceLoop_single_fst (c : Char) (k : Nat) :
    (braceLoop [c] 1 k).1 = k + 1 := by
  by_cases h1 : c = lbrace
  · simp [braceLoop, h1]
  · by_cases h2 : c = rbrace
    · simp [braceLoop, h1, h2, show ¬(rbrace = lbrace) from by decide]
    · simp [braceLoop, h1, h2]

/-- The signature regex never matches in empty text. -/
theorem search_sig_end_nil (M : List Char) : search_sig_end M [] = none := rfl

/-- Claim C3 (amended): splicing the same body twice is a no-op provided the
indented body contains no brace characters and the signature search on the
spliced output reports the same match end as on the original; claim C3's
unconditional idempotence is refuted by `c3_counterexample`.  No assumption is
made on the original brace scan: when it closes, the second scan closes at the
original closing brace; when it runs off the end, the splice keeps only the
source's last character and the second scan ends one past it either way. -/
theorem c3_splice_idempotent_amended (S M B : List Char) (e : Nat)
    (h1 : search_sig_end M S = some e)
    (h3 : ∀ c ∈ indent_code B 2, c ≠ lbrace ∧ c ≠ rbrace)
    (h4 : search_sig_end M (update_existing_method S M B) = some e) :
    update_existing_method (update_existing_method S M B) M B
      = update_existing_method S M B := by
  have he : e ≤ S.length := by
    have := searchEndAux_le _ S 0 e h1
    omega
  have htake : (S.take e).length = e := by rw [List.length_take]; omega
  have hO := update_existing_method_eq S M B e h1
  have hno : ∀ c ∈ ('\n' :: indent_code B 2) ++ ('\n' :: List.replicate 4 ' '),
      c ≠ lbrace ∧ c ≠ rbrace := by
    intro c hcm
    rcases List.mem_append.mp hcm with hm1 | hm2
    · rcases List.mem_cons.mp hm1 with hh | hh
      · subst hh; exact ⟨by decide, by decide⟩
      · exact h3 c hh
    · rcases List.mem_cons.mp hm2 with hh | hh
      · subst hh; exact ⟨by decide, by decide⟩
      · rw [List.eq_of_mem_replicate hh]; exact ⟨by decide, by decide⟩
  have hdropO : (update_existing_method S M B).drop e
      = (('\n' :: indent_code B 2) ++ ('\n' :: List.replicate 4 ' '))
        ++ S.drop ((braceLoop (S.drop e) 1 e).1 - 1) := by
    rw [hO, List.append_assoc, List.append_assoc, List.drop_left' htake,
      ← List.append_assoc]
  have htakeO : ((update_existing_method S M B).take e)
      = S.take e := by
    rw [hO, List.append_assoc, List.append_assoc, List.take_left' htake]
  have hscan1 : (braceLoop ((update_existing_method S M B).drop e) 1 e).1
      = e + ((('\n' :: indent_code B 2)
          ++ ('\n' :: List.replicate 4 ' ')).length) + 1 := by
    cases hclose : (braceLoop (S.drop e) 1 e).2 with
    | true =>
      obtain ⟨ha, hb, hc⟩ := braceLoop_closes (S.drop e) 1 e (le_refl 1) hclose
      rw [List.getElem?_drop] at hc
      have hidx : e + ((braceLoop (S.drop e) 1 e).1 - 1 - e)
          = (braceLoop (S.drop e) 1 e).1 - 1 := by omega
      rw [hidx] at hc
      obtain ⟨hXS, hXval⟩ := List.getElem?_eq_some.mp hc
      have hdropS : S.drop ((braceLoop (S.drop e) 1 e).1 - 1)
          = rbrace :: S.drop (braceLoop (S.drop e) 1 e).1 := by
        rw [List.drop_eq_getElem_cons hXS, hXval,
          show ((braceLoop (S.drop e) 1 e).1 - 1) + 1
            = (braceLoop (S.drop e) 1 e).1 from by omega]
      rw [hdropO, hdropS, braceLoop_skip _ hno _ 1 e (by omega),
        braceLoop_rbrace_head]
    | false =>
      have hSne : S ≠ [] := by
        intro hS
        rw [hS, search_sig_end_nil] at h1
        exact Option.noConfusion h1
      have hSlen : 1 ≤ S.length := List.length_pos.mpr hSne
      have hlt : S.length - 1 < S.length := by omega
      have hfst := braceLoop_no_close (S.drop e) 1 e hclose
      have hmend : (braceLoop (S.drop e) 1 e).1 - 1 = S.length - 1 := by
        rw [hfst, List.length_drop]
        omega
      have hsing : S.drop ((braceLoop (S.drop e) 1 e).1 - 1)
          = [S[S.length - 1]] := by
        rw [hmend, List.drop_eq_getElem_cons hlt,
          show S.length - 1 + 1 = S.length from by omega, List.drop_length]
      rw [hdropO, hsing, braceLoop_skip _ hno _ 1 e (by omega),
        braceLoop_single_fst]
  rw [update_existing_method_eq _ M B e h4, hscan1]
  have hdropO2 : (update_existing_method S M B).drop
      (e + ((('\n' :: indent_code B 2)
        ++ ('\n' :: List.replicate 4 ' ')).length) + 1 - 1)
      = S.drop ((braceLoop (S.drop e) 1 e).1 - 1) := by
    have hlen2 : ((S.take e ++ ('\n' :: indent_code B 2))
        ++ ('\n' :: List.replicate 4 ' ')).length
        = e + ((('\n' :: indent_code B 2)
          ++ ('\n' :: List.replicate 4 ' ')).length) + 1 - 1 := by
      simp [List.length_append, htake]
    rw [hO, List.drop_left' hlen2]
  rw [hdropO2, htakeO, ← hO]

/-- Claim C3 as stated is false: re-splicing a body that contains an
unbalanced closing brace changes the output again, because the second brace
scan closes inside the previously inserted body. -/
theorem c3_counterexample :
    update_existing_method (update_existing_method
        ("@Override public ResponseEntity<T> foo() \x7b x \x7d".toList)
        ("foo".toList) ("\x7d".toList))
      ("foo".toList) ("\x7d".toList)
    ≠ update_existing_method
        ("@Override public ResponseEntity<T> foo() \x7b x \x7d".toList)
        ("foo".toList) ("\x7d".toList) := by decide

theorem c3_witness :
    update_existing_method (update_existing_method witnessJavaSrc
        ("foo".toList) ("return null;".toList))
      ("foo".toList) ("return null;".toList)
    = update_existing_method witnessJavaSrc ("foo".toList)
        ("return null;".toList) :=
  c3_splice_idempotent_amended witnessJavaSrc ("foo".toList)
    ("return null;".toList) 57 (by decide) (by decide) (by decide)

/-- `content.rfind('}')` misses when there is no closing brace at all. -/
theorem lastBraceIdx_none_of_no_rbrace (cs : List Char)
    (h : ∀ c ∈ cs, c ≠ rbrace) : lastBraceIdx cs = none := by
  induction cs with
  | nil => rfl
  | cons c rest ih =>
    simp only [lastBraceIdx]
    rw [ih (fun c' hc' => h c' (List.mem_cons_of_mem c hc'))]
    simp [h c (List.mem_cons_self c rest)]

/-- Claim C7 (amended): on source text with no closing brace at all the
splicer raises `ValueError("Invalid Java class structure")` only in append
mode, i.e. when the method-existence regex does not match; in update mode it
returns output without raising (see `c7_counterexample`). -/
theorem c7_no_brace_append_error (content M : List Char) (ps : List Parameter)
    (rt B : List Char)
    (hnb : ∀ c ∈ content, c ≠ rbrace)
    (hnm : method_exists M content = false) :
    inject_method content M ps rt B
      = Except.error ("Invalid Java class structure") := by
  unfold inject_method
  rw [hnm]
  simp only [Bool.false_eq_true, if_false]
  unfold add_new_method
  rw [lastBraceIdx_none_of_no_rbrace content hnb]

theorem c7_witness :
    inject_method ("class Foo".toList) ("foo".toList) [] ("T".toList)
        ("x".toList)
      = Except.error ("Invalid Java class structure") :=
  c7_no_brace_append_error ("class Foo".toList) ("foo".toList) [] ("T".toList)
    ("x".toList) (by decide) (by decide)

/-- Claim C7 as stated is false: on a source text that contains the method
signature but no closing brace anywhere, the splicer raises nothing and
returns spliced output (the unmatched scan ends at the last character, which
is kept), instead of failing with a structural error. -/
theorem c7_counterexample :
    ("@Override public ResponseEntity<T> foo() \x7b return 1;".toList).all
        (fun c => !(c == rbrace)) = true ∧
    inject_method
        ("@Override public ResponseEntity<T> foo() \x7b return 1;".toList)
        ("foo".toList) [] ("T".toList) ("return null;".toList)
      = Except.ok
        ("@Override public ResponseEntity<T> foo() \x7b\n        return null;\n    ;".toList) := by
  exact ⟨by decide, by rfl⟩

/-! ## Claim C10: synthesized operation ids -/

/-- Claim C10 (amended): an operation lacking an `operationId` key gets the
synthesized id — the lower-cased method followed by the capitalized non-empty,
non-placeholder path segments — and that id is non-empty for every accepted
method; only an operation carrying an explicitly empty `operationId` string
produces an endpoint with an empty id (see `c10_counterexample`). -/
theorem c10_synthesized_opid (path method : List Char) (details : OperationObj)
    (h1 : details.operationId = none)
    (h2 : lowerStr method ∈ allowedMethods) :
    (parseOp path method details).map (fun ep => ep.operation_id)
        = some (generate_operation_id method path) ∧
      generate_operation_id method path ≠ [] := by
  constructor
  · simp [parseOp, h2, h1]
  · intro hcontra
    simp only [generate_operation_id] at hcontra
    have h5 := (List.append_eq_nil.mp hcontra).1
    rw [h5] at h2
    exact absurd h2 (by decide)

/-- An operation object carrying an explicitly empty `operationId`. -/
def opWithEmptyId : OperationObj :=
  { operationId := some []
    parameters := [], requestBody := none, responses := []
    tags := none, summary := none, description := none }

/-- A document whose only operation has the explicitly empty id. -/
def docWithEmptyId : OASDoc :=
  ⟨[("/x".toList, [("get".toList, opWithEmptyId)])]⟩

/-- Claim C10's closing sentence is false: a parsed endpoint can carry an
empty operationId when the document supplies `operationId: ""` — the default
only fires when the key is absent. -/
theorem c10_counterexample :
    (parse_endpoints docWithEmptyId).map (fun ep => ep.operation_id) = [[]] := by
  decide

/-- Operation object lacking an `operationId` key. -/
def opNoId : OperationObj :=
  { operationId := none
    parameters := [], requestBody := none, responses := []
    tags := none, summary := none, description := none }

theorem c10_witness :
    generate_operation_id ("get".toList) ("/api/users/\x7bid\x7d".toList)
        = "getApiUsers".toList ∧
    ((parseOp ("/api/users/\x7bid\x7d".toList) ("get".toList) opNoId).map
        (fun ep => ep.operation_id)
      = some (generate_operation_id ("get".toList)
          ("/api/users/\x7bid\x7d".toList)) ∧
      generate_operation_id ("get".toList) ("/api/users/\x7bid\x7d".toList)
        ≠ []) :=
  ⟨by decide, c10_synthesized_opid ("/api/users/\x7bid\x7d".toList)
    ("get".toList) opNoId rfl (by decide)⟩

end DelegateGen
